import Mathlib

/-!
Verification development for the `go-task-manager` repository.

The definitions below are shallow embeddings of the Go source:
* `internal/entities/task.go` (task entity and status validation),
* `internal/repository/postgres` (the SQL repository, modelled over an
  abstract table together with the control flow of each method),
* `internal/service/task_service.go` (the service layer pass-through),
* `internal/http/handler_task.go` (request validation in the handlers),
* `pkg/rest/standards.go` (`ParseQuery`),
and, where the repository only declares a component (the `Cache` interface in
`internal/cache/cache.go`) without implementing it, a model built from the
specification of the task-listing cache-aside layer.

Go `int`/`int64` values are modelled as `Int` (no operation here approaches
64-bit overflow), timestamps as abstract `Int` ticks, and fallible calls as
`Except`/`Option` values.
-/

/-- Task entity, from `internal/entities/task.go` (`Task` struct): id, title,
description, status, assignee id and the two store-assigned timestamps.
The status is carried as a string, as in Go (`TaskStatus string`). -/
structure TaskRec where
  id : Int
  title : String
  description : String
  status : String
  assigneeID : Int
  createdAt : Int
  updatedAt : Int
deriving DecidableEq, Repr

/-- `TaskStatus.IsValid` from `internal/entities/task.go`: a status is valid
exactly when it is one of the four enumerated constants. -/
def taskStatusIsValid (s : String) : Bool :=
  s == "pending" || s == "in_progress" || s == "done" || s == "canceled"

/-- Error values that can cross the repository boundary.
`noRows` stands for the driver error `sql.ErrNoRows`, `taskNotFound` for the
distinguished repository error `ErrTaskNotFound`, and `dbFailure code` for any
other database error (connectivity, constraint violation, ...). -/
inductive RepoErr where
  | noRows
  | taskNotFound
  | dbFailure (code : Nat)
deriving DecidableEq, Repr

/-- Query shape from `pkg/rest/standards.go`: a filter mapping plus the
pagination fields of `PaginationMeta` that the repository reads.
The Go `Filter` map is carried as an association list. -/
structure GoQuery where
  filter : List (String × String)
  page : Int
  perPage : Int
deriving DecidableEq, Repr

/-- The numeric value `strconv.Atoi` hands back for one decimal digit. -/
def digitVal (c : Char) : Option Nat :=
  if c = '0' then some 0 else if c = '1' then some 1 else
  if c = '2' then some 2 else if c = '3' then some 3 else
  if c = '4' then some 4 else if c = '5' then some 5 else
  if c = '6' then some 6 else if c = '7' then some 7 else
  if c = '8' then some 8 else if c = '9' then some 9 else none

/-- Accumulator loop behind `parseDigits`. -/
def parseDigitsAux : List Char → Nat → Option Nat
  | [], acc => some acc
  | c :: cs, acc =>
    match digitVal c with
    | some d => parseDigitsAux cs (acc * 10 + d)
    | none => none

/-- Parse a non-empty all-digit character list to its decimal value. -/
def parseDigits : List Char → Option Nat
  | [] => none
  | l => parseDigitsAux l 0

/-- Model of Go `strconv.Atoi` with the error discarded, as used in
`ParseQuery` (`query.Page, _ = strconv.Atoi(value)`): an optional sign
followed by one or more decimal digits parses to the signed value; any
malformed input yields 0.  The 64-bit clamp Go applies to out-of-range
literals is not modelled (it never changes the sign or zero-ness of the
result, which is all the statements below depend on). -/
def atoi (s : String) : Int :=
  match s.data with
  | '-' :: rest =>
    match parseDigits rest with
    | some n => -(n : Int)
    | none => 0
  | '+' :: rest =>
    match parseDigits rest with
    | some n => (n : Int)
    | none => 0
  | l =>
    match parseDigits l with
    | some n => (n : Int)
    | none => 0

/-- One step of the parameter loop in `rest.ParseQuery`: an entry with no
values is skipped; `page` and `per_page` entries set the pagination fields
through `atoi`; every other key becomes a filter entry. -/
def parseQueryStep (q : GoQuery) (kv : String × List String) : GoQuery :=
  match kv.2 with
  | [] => q
  | v :: _ =>
    if kv.1 = "page" then { q with page := atoi v }
    else if kv.1 = "per_page" then { q with perPage := atoi v }
    else { q with filter := q.filter ++ [(kv.1, v)] }

/-- The first defaulting step of `rest.ParseQuery`:
`if query.Page == 0 { query.Page = 1 }`. -/
def applyPageDefault (q : GoQuery) : GoQuery :=
  if q.page = 0 then { q with page := 1 } else q

/-- The second defaulting step of `rest.ParseQuery`:
`if query.PerPage == 0 { query.PerPage = 20 }`. -/
def applyPerPageDefault (q : GoQuery) : GoQuery :=
  if q.perPage = 0 then { q with perPage := 20 } else q

/-- `rest.ParseQuery` from `pkg/rest/standards.go`: fold the query parameters of the request over `parseQueryStep`, then default a zero page to 1 and a zero
page size to 20, in that order. -/
def parseQuery (params : List (String × List String)) : GoQuery :=
  applyPerPageDefault (applyPageDefault
    (params.foldl parseQueryStep { filter := [], page := 0, perPage := 0 }))

/-- Column lookup used by the WHERE clause the repository builds: the SQL
comparison `field = $i` against a task row, for the three recognised fields.
The `assignee_id` column is an integer compared against the string parameter,
which Postgres coerces; the coercion is modelled by rendering the column
value in decimal. -/
def intToString (i : Int) : String :=
  if i < 0 then "-" ++ toString i.natAbs else toString i.toNat

/-- Whether a task row satisfies one filter entry as compiled by
`postgres.Task.List` (`internal/entities/task.go`): only the keys `status`,
`assignee_id` and `title` contribute a condition; every other key is
ignored by the `switch` and therefore matches everything. -/
def filterEntryMatches (r : TaskRec) (kv : String × String) : Bool :=
  if kv.1 = "status" then r.status == kv.2
  else if kv.1 = "assignee_id" then intToString r.assigneeID == kv.2
  else if kv.1 = "title" then r.title == kv.2
  else true

/-- Conjunction of the WHERE conditions of `postgres.Task.List` for a row. -/
def rowMatches (filt : List (String × String)) (r : TaskRec) : Bool :=
  filt.all (filterEntryMatches r)

/-- Semantics of `SELECT ... LIMIT $n OFFSET $m` over the already-filtered
row list: Postgres rejects a negative LIMIT or OFFSET, otherwise it skips
`offset` rows and returns at most `limit` rows. -/
def sqlSelectPage (rows : List TaskRec) (limit offset : Int) :
    Except RepoErr (List TaskRec) :=
  if limit < 0 ∨ offset < 0 then .error (.dbFailure 0)
  else .ok ((rows.drop offset.toNat).take limit.toNat)

/-- `postgres.Task.List` from `internal/entities/task.go`, executed over an
abstract table: build the WHERE conditions from the filter, run
`SELECT COUNT(*)` with those conditions, then run the page query with
`LIMIT perPage OFFSET (page-1)*perPage`, and return the page of rows
together with the total count. -/
def taskRepoList (table : List TaskRec) (q : GoQuery) :
    Except RepoErr (List TaskRec × Nat) :=
  match sqlSelectPage (table.filter (rowMatches q.filter)) q.perPage
      ((q.page - 1) * q.perPage) with
  | .error e => .error e
  | .ok rows => .ok (rows, (table.filter (rowMatches q.filter)).length)

/-- Control flow of `postgres.Task.List` with the outcomes of the two
database calls (`GetContext` for the count, `SelectContext` for the page)
taken as inputs: a failing count query aborts with that error before the
page query runs; a failing page query aborts with that error; otherwise the
rows and the count are returned. -/
def taskRepoListFlow (countRes : Except RepoErr Nat)
    (selectRes : Except RepoErr (List TaskRec)) :
    Except RepoErr (List TaskRec × Nat) :=
  match countRes with
  | .error e => .error e
  | .ok total =>
    match selectRes with
    | .error e => .error e
    | .ok rows => .ok (rows, total)

/-- `postgres.Task.GetByID` over an abstract table: `GetContext` on the
single-row query yields `sql.ErrNoRows` exactly when no row has the given
id, which the repository maps to `ErrTaskNotFound`; a found row is returned
as is. -/
def taskRepoGetByID (table : List TaskRec) (id : Int) :
    Except RepoErr TaskRec :=
  match table.find? (fun r => r.id == id) with
  | none => .error .taskNotFound
  | some r => .ok r

/-- Control flow of `postgres.Task.GetByID` with the database outcome taken
as input: `sql.ErrNoRows` is rewritten to `ErrTaskNotFound`, any other
error is returned unchanged, and a fetched row passes through. -/
def taskRepoGetByIDFlow (dbRes : Except RepoErr TaskRec) :
    Except RepoErr TaskRec :=
  match dbRes with
  | .error e => if e = .noRows then .error .taskNotFound else .error e
  | .ok r => .ok r

/-- Control flow of `postgres.Task.Delete` from `internal/entities/task.go`:
the outer `Except` is the outcome of `ExecContext`, the inner one the
outcome of `RowsAffected` (carrying the affected row count). A failing call
returns its error unchanged; zero affected rows return `ErrTaskNotFound`;
otherwise the delete succeeds (`none`, i.e. a nil error). -/
def taskRepoDelete (execRes : Except RepoErr (Except RepoErr Nat)) :
    Option RepoErr :=
  match execRes with
  | .error e => some e
  | .ok rowsRes =>
    match rowsRes with
    | .error e => some e
    | .ok rows => if rows = 0 then some .taskNotFound else none

/-- The row rewrite performed by the UPDATE statement of
`postgres.Task.Update`: rows whose id matches have their title, description
and status replaced and `updated_at` set to `now()`; every other column
(id, `assignee_id`, `created_at`) and every other row is left unchanged. -/
def applyUpdateRow (t : TaskRec) (now : Int) (r : TaskRec) : TaskRec :=
  if r.id == t.id then
    { r with title := t.title, description := t.description,
             status := t.status, updatedAt := now }
  else r

/-- `postgres.Task.Update` over an abstract table: if no row has the given
id, `GetContext` sees `sql.ErrNoRows` and the repository returns
`ErrTaskNotFound`; otherwise the table is rewritten by `applyUpdateRow` and
the updated row is read back through the RETURNING clause. -/
def taskRepoUpdate (table : List TaskRec) (t : TaskRec) (now : Int) :
    Except RepoErr (TaskRec × List TaskRec) :=
  match table.find? (fun r => r.id == t.id) with
  | none => .error .taskNotFound
  | some r => .ok (applyUpdateRow t now r, table.map (applyUpdateRow t now))

/-- `service.Task.List` from `internal/service/task_service.go`: the service
records metrics (side-effect free in this model) and hands the repository
result triple back unchanged. -/
def serviceList (repoRes : Except RepoErr (List TaskRec × Nat)) :
    Except RepoErr (List TaskRec × Nat) :=
  repoRes

/-- `CreateTaskRequest` from `internal/http/handler_task.go`: title and
assignee id carry `binding:"required"`, status is optional. -/
structure CreateTaskRequest where
  title : String
  description : String
  status : String
  assigneeID : Int
deriving DecidableEq, Repr

/-- The `binding:"required"` check `ShouldBindJSON` performs on a decoded
`CreateTaskRequest`: a required string must be non-empty and a required
integer non-zero. -/
def createBindOK (req : CreateTaskRequest) : Bool :=
  req.title != "" && req.assigneeID != 0

/-- Outcome of `Handler.TaskCreate` up to the service call: a binding
failure or an invalid status answers 400 without touching the service; a
valid request reaches `TaskService.Create` with the task the handler
builds. -/
inductive CreateHandlerResult where
  | badRequest
  | invalidStatus
  | createCalled (t : TaskRec)
deriving DecidableEq, Repr

/-- `Handler.TaskCreate` from `internal/http/handler_task.go`, up to the
service call: bind the request, default an empty status to `pending`,
reject a status failing `TaskStatus.IsValid`, otherwise invoke the service
with the assembled entity (id and timestamps still zero — the store assigns
them). -/
def taskCreateHandler (req : CreateTaskRequest) : CreateHandlerResult :=
  if !(createBindOK req) then .badRequest
  else
    let status := if req.status = "" then "pending" else req.status
    if !(taskStatusIsValid status) then .invalidStatus
    else .createCalled
      { id := 0, title := req.title, description := req.description,
        status := status, assigneeID := req.assigneeID,
        createdAt := 0, updatedAt := 0 }

/-- `UpdateTaskRequest` from `internal/http/handler_task.go`. -/
structure UpdateTaskRequest where
  title : String
  description : String
  status : String
  assigneeID : Int
deriving DecidableEq, Repr

/-- The entity `Handler.TaskUpdate` assembles from the path id and the
request body before calling `TaskService.Update`; it carries the assignee id
of the request even though the UPDATE statement never writes it. -/
def updateReqToTask (id : Int) (req : UpdateTaskRequest) : TaskRec :=
  { id := id, title := req.title, description := req.description,
    status := req.status, assigneeID := req.assigneeID,
    createdAt := 0, updatedAt := 0 }

/-- Modelled from the spec: the repository declares only the `Cache`
interface (`internal/cache/cache.go`) and sketches the cache-aside layer in
its documentation; the query-key encoder and coordinator below follow §4.1
and §4.2 of the specification. Boolean lexicographic comparison of
character lists (by code point), used to sort filter keys. -/
def charListLe : List Char → List Char → Bool
  | [], _ => true
  | _ :: _, [] => false
  | a :: as, b :: bs =>
    if a.toNat < b.toNat then true
    else if b.toNat < a.toNat then false
    else charListLe as bs

/-- Modelled from the spec: lexicographic order on strings used by the
query-key encoder to normalise the filter mapping. -/
def strLe (a b : String) : Bool := charListLe a.data b.data

/-- Modelled from the spec: order on filter entries comparing the field
names, used to sort the filter mapping by key. -/
def keyLe (a b : String × String) : Prop := strLe a.1 b.1 = true

instance : DecidableRel keyLe :=
  fun a b => inferInstanceAs (Decidable (strLe a.1 b.1 = true))

/-- Decimal digit character for a value below ten. -/
def charOfDigit : Nat → Char
  | 0 => '0' | 1 => '1' | 2 => '2' | 3 => '3' | 4 => '4'
  | 5 => '5' | 6 => '6' | 7 => '7' | 8 => '8' | _ => '9'

/-- Little-endian decimal digits of `n`, with explicit fuel (the first
argument) so that the recursion is structural; `n` itself is enough fuel. -/
def toDigitsRev : Nat → Nat → List Nat
  | 0, _ => []
  | fuel + 1, n => if n = 0 then [] else n % 10 :: toDigitsRev fuel (n / 10)

/-- Decimal rendering of a natural number as a character list. -/
def digitChars (n : Nat) : List Char :=
  if n = 0 then ['0'] else ((toDigitsRev n n).map charOfDigit).reverse

/-- Decimal rendering of an integer as a character list (sign, then
digits); the encoder renders the page and page-size with it. -/
def intChars (i : Int) : List Char :=
  if i < 0 then '-' :: digitChars i.natAbs else digitChars i.toNat

/-- Modelled from the spec (§4.1): one normalised `field=value` component of
the cache key. -/
def pairChars (kv : String × String) : List Char :=
  kv.1.data ++ '=' :: kv.2.data

/-- Modelled from the spec (§4.1): join the key components with the fixed
separator character. -/
def joinBar : List (List Char) → List Char
  | [] => []
  | [x] => x
  | x :: xs => x ++ '|' :: joinBar xs

/-- Modelled from the spec (§4.1), since no key encoder exists in the
source: sort the filter mapping by field name, render each entry as
`field=value`, append the page and the page-size, and join everything with
the separator into a single string key. -/
def encodeQuery (q : GoQuery) : String :=
  ⟨joinBar (((List.insertionSort keyLe q.filter).map pairChars)
    ++ [intChars q.page, intChars q.perPage])⟩

/-- A cached listing value: the page of tasks plus the total count. -/
abbrev CacheVal := List TaskRec × Nat

/-- Modelled from the spec: the state of the Cache Backend
(`internal/cache/cache.go` declares it as get/set/delete by string key),
as an association list from keys to cached listing values.  TTL expiry is
time-driven and not modelled: an entry persists until invalidated. -/
abbrev CacheState := List (String × CacheVal)

/-- Modelled from the spec: `Cache.Get` — first entry stored under the key,
if any. -/
def cacheGet (c : CacheState) (k : String) : Option CacheVal :=
  (c.find? (fun e => e.1 == k)).map (fun e => e.2)

/-- Modelled from the spec: `Cache.Set` — store the value under the key
(the TTL argument is carried but, with expiry not modelled, unused). -/
def cacheSet (c : CacheState) (k : String) (v : CacheVal) (_ttl : Nat) :
    CacheState :=
  (k, v) :: c

/-- Modelled from the spec (§4.2, default TTL, in seconds). -/
def cacheTTLDefault : Nat := 600

/-- Modelled from the spec: the Task Store as seen by the coordinator — an
abstract list operation per query.  Mutation outcomes are passed to the
write operations directly. -/
structure StoreModel where
  list : GoQuery → Except RepoErr CacheVal

/-- Result of one coordinator read: the returned value, the cache state
afterwards, and whether the Task Store was invoked. -/
structure ListOutcome where
  result : Except RepoErr CacheVal
  cache : CacheState
  storeCalled : Bool

/-- Modelled from the spec (§4.2, read path), since no coordinator exists
in the source: encode the query, return a cache hit immediately without
touching the store; on a miss call the store, propagate its error
unchanged, and on success populate the cache under the encoded key before
returning the store result. -/
def listTasks (st : StoreModel) (c : CacheState) (q : GoQuery) :
    ListOutcome :=
  match cacheGet c (encodeQuery q) with
  | some v => ⟨.ok v, c, false⟩
  | none =>
    match st.list q with
    | .error e => ⟨.error e, c, true⟩
    | .ok v => ⟨.ok v, cacheSet c (encodeQuery q) v cacheTTLDefault, true⟩

/-- Modelled from the spec (§4.2, write path): `CreateTask` — the store
mutation outcome is given; on failure no invalidation happens, on success
the coarse policy drops every cached listing entry. -/
def createTask (res : Except RepoErr TaskRec) (c : CacheState) :
    Except RepoErr TaskRec × CacheState :=
  match res with
  | .error e => (.error e, c)
  | .ok t => (.ok t, [])

/-- Modelled from the spec (§4.2, write path): `UpdateTask`, with the same
invalidation policy as `createTask`. -/
def updateTask (res : Except RepoErr TaskRec) (c : CacheState) :
    Except RepoErr TaskRec × CacheState :=
  match res with
  | .error e => (.error e, c)
  | .ok t => (.ok t, [])

/-- Modelled from the spec (§4.2, write path): `DeleteTask`, whose store
outcome is just an optional error, with the same invalidation policy. -/
def deleteTask (res : Option RepoErr) (c : CacheState) :
    Option RepoErr × CacheState :=
  match res with
  | some e => (some e, c)
  | none => (none, [])

theorem char_toNat_inj {a b : Char} (h : a.toNat = b.toNat) : a = b :=
  Char.eq_of_val_eq (UInt32.ext h)

theorem charListLe_refl : ∀ l : List Char, charListLe l l = true
  | [] => rfl
  | a :: as => by
    simp only [charListLe, lt_self_iff_false, if_false]
    exact charListLe_refl as

theorem charListLe_total : ∀ l1 l2 : List Char,
    charListLe l1 l2 = true ∨ charListLe l2 l1 = true
  | [], _ => Or.inl rfl
  | _ :: _, [] => Or.inr rfl
  | a :: as, b :: bs => by
    rcases Nat.lt_trichotomy a.toNat b.toNat with h | h | h
    · left
      simp [charListLe, h]
    · simp only [charListLe, h, lt_self_iff_false, if_false]
      exact charListLe_total as bs
    · right
      simp [charListLe, h]

theorem charListLe_antisymm : ∀ l1 l2 : List Char,
    charListLe l1 l2 = true → charListLe l2 l1 = true → l1 = l2
  | [], [], _, _ => rfl
  | [], _ :: _, _, h2 => by simp [charListLe] at h2
  | _ :: _, [], h1, _ => by simp [charListLe] at h1
  | a :: as, b :: bs, h1, h2 => by
    rcases Nat.lt_trichotomy a.toNat b.toNat with h | h | h
    · simp [charListLe, h, Nat.lt_asymm h] at h2
    · have hab : a = b := char_toNat_inj h
      subst hab
      simp only [charListLe, lt_self_iff_false, if_false] at h1 h2
      exact congrArg (a :: ·) (charListLe_antisymm as bs h1 h2)
    · simp [charListLe, h, Nat.lt_asymm h] at h1

theorem charListLe_trans : ∀ l1 l2 l3 : List Char,
    charListLe l1 l2 = true → charListLe l2 l3 = true → charListLe l1 l3 = true
  | [], _, _, _, _ => rfl
  | _ :: _, [], _, h1, _ => by simp [charListLe] at h1
  | _ :: _, _ :: _, [], _, h2 => by simp [charListLe] at h2
  | a :: as, b :: bs, c :: cs, h1, h2 => by
    simp only [charListLe] at h1 h2 ⊢
    split_ifs at h1 h2 ⊢ <;>
      first
        | rfl
        | omega
        | (exact charListLe_trans as bs cs h1 h2)

theorem strLe_antisymm {a b : String} (h1 : strLe a b = true)
    (h2 : strLe b a = true) : a = b :=
  String.ext (charListLe_antisymm a.data b.data h1 h2)


theorem insertionSort_keyLe_eq_of_perm {f1 f2 : List (String × String)}
    (hperm : f1.Perm f2) (hnd : (f1.map Prod.fst).Nodup) :
    List.insertionSort keyLe f1 = List.insertionSort keyLe f2 := by
  haveI : IsTotal (String × String) keyLe :=
    ⟨fun a b => charListLe_total a.1.data b.1.data⟩
  haveI : IsTrans (String × String) keyLe :=
    ⟨fun a b c => charListLe_trans a.1.data b.1.data c.1.data⟩
  haveI : IsAntisymm (String × String) (fun a b => keyLe a b ∧ a.1 ≠ b.1) :=
    ⟨fun a b hab hba => absurd (strLe_antisymm hab.1 hba.1) hab.2⟩
  have hp1 := List.perm_insertionSort keyLe f1
  have hp2 := List.perm_insertionSort keyLe f2
  have hs1 := List.sorted_insertionSort keyLe f1
  have hs2 := List.sorted_insertionSort keyLe f2
  have hnds1 : ((List.insertionSort keyLe f1).map Prod.fst).Nodup :=
    ((hp1.map Prod.fst).nodup_iff).mpr hnd
  have hnds2 : ((List.insertionSort keyLe f2).map Prod.fst).Nodup :=
    ((hp2.map Prod.fst).nodup_iff).mpr (((hperm.map Prod.fst).nodup_iff).mp hnd)
  have hne1 : (List.insertionSort keyLe f1).Pairwise (fun a b => a.1 ≠ b.1) :=
    List.pairwise_map.mp hnds1
  have hne2 : (List.insertionSort keyLe f2).Pairwise (fun a b => a.1 ≠ b.1) :=
    List.pairwise_map.mp hnds2
  have hperm12 : (List.insertionSort keyLe f1).Perm (List.insertionSort keyLe f2) :=
    hp1.trans (hperm.trans hp2.symm)
  exact List.eq_of_perm_of_sorted hperm12 (hs1.and hne1) (hs2.and hne2)

theorem append_sep_inj (sep : Char) : ∀ (a a2 b b2 : List Char),
    sep ∉ a → sep ∉ a2 → a ++ sep :: b = a2 ++ sep :: b2 → a = a2 ∧ b = b2
  | [], [], b, b2, _, _, h => by
    simp only [List.nil_append, List.cons.injEq] at h
    exact ⟨rfl, h.2⟩
  | [], x :: xs, b, b2, _, h2, h => by
    simp only [List.nil_append, List.cons_append, List.cons.injEq] at h
    exact absurd (h.1 ▸ List.mem_cons_self x xs) h2
  | x :: xs, [], b, b2, h1, _, h => by
    simp only [List.nil_append, List.cons_append, List.cons.injEq] at h
    exact absurd (h.1.symm ▸ List.mem_cons_self x xs) h1
  | x :: xs, y :: ys, b, b2, h1, h2, h => by
    simp only [List.cons_append, List.cons.injEq] at h
    have ih := append_sep_inj sep xs ys b b2
      (fun hm => h1 (List.mem_cons_of_mem x hm))
      (fun hm => h2 (List.mem_cons_of_mem y hm)) h.2
    exact ⟨by rw [h.1, ih.1], ih.2⟩

theorem joinBar_cons_ne_nil {xs : List (List Char)} (x : List Char)
    (h : xs ≠ []) : joinBar (x :: xs) = x ++ '|' :: joinBar xs := by
  match xs, h with
  | y :: ys, _ => rfl

theorem joinBar_cancel_two : ∀ (C : List (List Char)) (x y x2 y2 : List Char),
    '|' ∉ x → '|' ∉ x2 →
    joinBar (C ++ [x, y]) = joinBar (C ++ [x2, y2]) → x = x2 ∧ y = y2
  | [], x, y, x2, y2, h1, h2, h => by
    simp only [List.nil_append] at h
    exact append_sep_inj '|' x x2 y y2 h1 h2 h
  | a :: C, x, y, x2, y2, h1, h2, h => by
    rw [List.cons_append, List.cons_append,
      joinBar_cons_ne_nil a (by simp), joinBar_cons_ne_nil a (by simp)] at h
    have h3 := List.append_cancel_left h
    simp only [List.cons.injEq, true_and] at h3
    exact joinBar_cancel_two C x y x2 y2 h1 h2 h3

theorem joinBar_inj : ∀ (C1 C2 : List (List Char)),
    (∀ x ∈ C1, x ≠ [] ∧ '|' ∉ x) → (∀ x ∈ C2, x ≠ [] ∧ '|' ∉ x) →
    joinBar C1 = joinBar C2 → C1 = C2
  | [], [], _, _, _ => rfl
  | [], y :: ys, _, h2, h => by
    cases ys with
    | nil =>
      exact absurd h.symm (h2 y (List.mem_cons_self y [])).1
    | cons z zs =>
      rw [joinBar_cons_ne_nil y (by simp)] at h
      simp only [joinBar] at h
      exact absurd h.symm (by simp)
  | x :: xs, [], h1, _, h => by
    cases xs with
    | nil =>
      exact absurd h (h1 x (List.mem_cons_self x [])).1
    | cons z zs =>
      rw [joinBar_cons_ne_nil x (by simp)] at h
      simp only [joinBar] at h
      exact absurd h (by simp)
  | x :: xs, y :: ys, h1, h2, h => by
    cases xs with
    | nil =>
      cases ys with
      | nil =>
        simp only [joinBar] at h
        rw [h]
      | cons z zs =>
        rw [joinBar_cons_ne_nil y (by simp)] at h
        simp only [joinBar] at h
        have : '|' ∈ x := by
          rw [h]
          simp
        exact absurd this (h1 x (List.mem_cons_self x [])).2
    | cons w ws =>
      cases ys with
      | nil =>
        rw [joinBar_cons_ne_nil x (by simp)] at h
        simp only [joinBar] at h
        have : '|' ∈ y := by
          rw [← h]
          simp
        exact absurd this (h2 y (List.mem_cons_self y [])).2
      | cons z zs =>
        rw [joinBar_cons_ne_nil x (by simp), joinBar_cons_ne_nil y (by simp)] at h
        have hxy := append_sep_inj '|' x y (joinBar (w :: ws)) (joinBar (z :: zs))
          (h1 x (List.mem_cons_self x _)).2 (h2 y (List.mem_cons_self y _)).2 h
        have ih := joinBar_inj (w :: ws) (z :: zs)
          (fun u hu => h1 u (List.mem_cons_of_mem x hu))
          (fun u hu => h2 u (List.mem_cons_of_mem y hu)) hxy.2
        rw [hxy.1, ih]

theorem toDigitsRev_lt_ten : ∀ (fuel n : Nat), ∀ d ∈ toDigitsRev fuel n, d < 10
  | 0, _, _, hd => by simp [toDigitsRev] at hd
  | fuel + 1, n, d, hd => by
    by_cases hn : n = 0
    · simp [toDigitsRev, hn] at hd
    · simp only [toDigitsRev, hn, if_false, List.mem_cons] at hd
      cases hd with
      | inl h => exact h ▸ Nat.mod_lt n (by omega)
      | inr h => exact toDigitsRev_lt_ten fuel (n / 10) d h

theorem toDigitsRev_eq_nil : ∀ (fuel n : Nat), n ≤ fuel →
    toDigitsRev fuel n = [] → n = 0
  | 0, n, hle, _ => Nat.le_zero.mp hle
  | fuel + 1, n, _, h => by
    by_cases hn : n = 0
    · exact hn
    · simp [toDigitsRev, hn] at h

theorem toDigitsRev_ne_nil (fuel n : Nat) (hn : n ≠ 0) (hle : n ≤ fuel) :
    toDigitsRev fuel n ≠ [] :=
  fun h => hn (toDigitsRev_eq_nil fuel n hle h)

theorem toDigitsRev_inj : ∀ (fuel1 fuel2 n m : Nat), n ≤ fuel1 → m ≤ fuel2 →
    toDigitsRev fuel1 n = toDigitsRev fuel2 m → n = m
  | 0, fuel2, n, m, hn, hm, h => by
    have hn0 : n = 0 := Nat.le_zero.mp hn
    have hnil : toDigitsRev fuel2 m = [] := h.symm
    have hm0 := toDigitsRev_eq_nil fuel2 m hm hnil
    omega
  | fuel1 + 1, fuel2, n, m, hn, hm, h => by
    by_cases hn0 : n = 0
    · subst hn0
      simp only [toDigitsRev, if_pos rfl] at h
      exact (toDigitsRev_eq_nil fuel2 m hm h.symm).symm
    · by_cases hm0 : m = 0
      · subst hm0
        rw [show toDigitsRev fuel2 0 = [] from by cases fuel2 <;> rfl] at h
        exact absurd (toDigitsRev_eq_nil (fuel1 + 1) n hn h) hn0
      · cases fuel2 with
        | zero => exact absurd (Nat.le_zero.mp hm) hm0
        | succ fuel2 =>
          simp only [toDigitsRev, hn0, hm0, if_false, List.cons.injEq] at h
          have hrec : n / 10 = m / 10 :=
            toDigitsRev_inj fuel1 fuel2 (n / 10) (m / 10)
              (by omega) (by omega) h.2
          omega

theorem charOfDigit_inj : ∀ a < 10, ∀ b < 10, charOfDigit a = charOfDigit b → a = b := by
  decide

theorem charOfDigit_ne_bar : ∀ d < 10, charOfDigit d ≠ '|' := by decide

theorem map_charOfDigit_inj : ∀ (l1 l2 : List Nat),
    (∀ d ∈ l1, d < 10) → (∀ d ∈ l2, d < 10) →
    l1.map charOfDigit = l2.map charOfDigit → l1 = l2
  | [], [], _, _, _ => rfl
  | [], _ :: _, _, _, h => by simp at h
  | _ :: _, [], _, _, h => by simp at h
  | a :: as, b :: bs, h1, h2, h => by
    simp only [List.map_cons, List.cons.injEq] at h
    have hab : a = b :=
      charOfDigit_inj a (h1 a (List.mem_cons_self a as))
        b (h2 b (List.mem_cons_self b bs)) h.1
    have ih := map_charOfDigit_inj as bs
      (fun d hd => h1 d (List.mem_cons_of_mem a hd))
      (fun d hd => h2 d (List.mem_cons_of_mem b hd)) h.2
    rw [hab, ih]

theorem toDigitsRev_self_zero_digit {m : Nat} (h : toDigitsRev m m = [0]) :
    m = 0 := by
  cases m with
  | zero => rfl
  | succ k =>
    exfalso
    have hne : k + 1 ≠ 0 := Nat.succ_ne_zero k
    simp only [toDigitsRev, hne, if_false, List.cons.injEq] at h
    have hdiv := toDigitsRev_eq_nil k ((k + 1) / 10)
      (by omega) h.2
    omega

theorem digitChars_inj : ∀ (n m : Nat), digitChars n = digitChars m → n = m := by
  intro n m h
  by_cases hn : n = 0 <;> by_cases hm : m = 0
  · omega
  · exfalso
    subst hn
    unfold digitChars at h
    rw [if_pos rfl, if_neg hm] at h
    have h2 : (toDigitsRev m m).map charOfDigit = ['0'] := by
      have h1r := congrArg List.reverse h
      simp only [List.reverse_reverse] at h1r
      exact h1r.symm
    have h3 : toDigitsRev m m = [0] :=
      map_charOfDigit_inj _ _ (toDigitsRev_lt_ten m m) (by simp)
        (by rw [h2]; rfl)
    exact hm (toDigitsRev_self_zero_digit h3)
  · exfalso
    subst hm
    unfold digitChars at h
    rw [if_neg hn, if_pos rfl] at h
    have h2 : (toDigitsRev n n).map charOfDigit = ['0'] := by
      have h1r := congrArg List.reverse h
      simp only [List.reverse_reverse] at h1r
      exact h1r
    have h3 : toDigitsRev n n = [0] :=
      map_charOfDigit_inj _ _ (toDigitsRev_lt_ten n n) (by simp)
        (by rw [h2]; rfl)
    exact hn (toDigitsRev_self_zero_digit h3)
  · unfold digitChars at h
    rw [if_neg hn, if_neg hm] at h
    have h2 := congrArg List.reverse h
    simp only [List.reverse_reverse] at h2
    exact toDigitsRev_inj n m n m (Nat.le_refl n) (Nat.le_refl m)
      (map_charOfDigit_inj _ _ (toDigitsRev_lt_ten n n) (toDigitsRev_lt_ten m m) h2)

theorem digitChars_ne_nil (n : Nat) : digitChars n ≠ [] := by
  by_cases hn : n = 0
  · simp [digitChars, hn]
  · simp only [digitChars, hn, if_false]
    intro h
    have := congrArg List.reverse h
    simp only [List.reverse_reverse, List.reverse_nil, List.map_eq_nil_iff] at this
    exact toDigitsRev_ne_nil n n hn (Nat.le_refl n) this

theorem bar_not_mem_digitChars (n : Nat) : '|' ∉ digitChars n := by
  by_cases hn : n = 0
  · simp [digitChars, hn]
  · simp only [digitChars, hn, if_false]
    intro hmem
    rw [List.mem_reverse] at hmem
    rcases List.mem_map.mp hmem with ⟨d, hd, hc⟩
    exact charOfDigit_ne_bar d (toDigitsRev_lt_ten n n d hd) hc

theorem intChars_pos {i : Int} (h : 1 ≤ i) : intChars i = digitChars i.toNat := by
  unfold intChars
  rw [if_neg (by omega)]

theorem intChars_inj_pos {p q : Int} (hp : 1 ≤ p) (hq : 1 ≤ q)
    (h : intChars p = intChars q) : p = q := by
  rw [intChars_pos hp, intChars_pos hq] at h
  have := digitChars_inj _ _ h
  omega

theorem bar_not_mem_intChars_pos {i : Int} (h : 1 ≤ i) : '|' ∉ intChars i := by
  rw [intChars_pos h]
  exact bar_not_mem_digitChars _

theorem intChars_ne_nil_pos {i : Int} (h : 1 ≤ i) : intChars i ≠ [] := by
  rw [intChars_pos h]
  exact digitChars_ne_nil _

theorem pairChars_inj {kv1 kv2 : String × String}
    (h1 : '=' ∉ kv1.1.data) (h2 : '=' ∉ kv2.1.data)
    (h : pairChars kv1 = pairChars kv2) : kv1 = kv2 := by
  unfold pairChars at h
  have hsp := append_sep_inj '=' kv1.1.data kv2.1.data kv1.2.data kv2.2.data h1 h2 h
  have hk : kv1.1 = kv2.1 := String.ext hsp.1
  have hv : kv1.2 = kv2.2 := String.ext hsp.2
  exact Prod.ext hk hv

theorem pairChars_ne_nil (kv : String × String) : pairChars kv ≠ [] := by
  unfold pairChars
  simp

theorem bar_not_mem_pairChars {kv : String × String}
    (h1 : '|' ∉ kv.1.data) (h2 : '|' ∉ kv.2.data) : '|' ∉ pairChars kv := by
  unfold pairChars
  intro hmem
  rcases List.mem_append.mp hmem with h | h
  · exact h1 h
  · rcases List.mem_cons.mp h with h | h
    · exact absurd h (by decide)
    · exact h2 h

theorem map_pairChars_inj : ∀ (l1 l2 : List (String × String)),
    (∀ kv ∈ l1, '=' ∉ (kv : String × String).1.data) →
    (∀ kv ∈ l2, '=' ∉ (kv : String × String).1.data) →
    l1.map pairChars = l2.map pairChars → l1 = l2
  | [], [], _, _, _ => rfl
  | [], _ :: _, _, _, h => by simp at h
  | _ :: _, [], _, _, h => by simp at h
  | a :: as, b :: bs, h1, h2, h => by
    simp only [List.map_cons, List.cons.injEq] at h
    have hab : a = b :=
      pairChars_inj (h1 a (List.mem_cons_self a as))
        (h2 b (List.mem_cons_self b bs)) h.1
    have ih := map_pairChars_inj as bs
      (fun kv hkv => h1 kv (List.mem_cons_of_mem a hkv))
      (fun kv hkv => h2 kv (List.mem_cons_of_mem b hkv)) h.2
    rw [hab, ih]

theorem encodeQuery_det {f1 f2 : List (String × String)} (p s : Int)
    (hnd : (f1.map Prod.fst).Nodup) (hperm : f1.Perm f2) :
    encodeQuery { filter := f1, page := p, perPage := s }
      = encodeQuery { filter := f2, page := p, perPage := s } := by
  unfold encodeQuery
  rw [insertionSort_keyLe_eq_of_perm hperm hnd]

theorem encodeQuery_pagesize_inj {f : List (String × String)}
    {p1 s1 p2 s2 : Int} (hp1 : 1 ≤ p1) (hs1 : 1 ≤ s1) (hp2 : 1 ≤ p2)
    (hs2 : 1 ≤ s2)
    (h : encodeQuery { filter := f, page := p1, perPage := s1 }
      = encodeQuery { filter := f, page := p2, perPage := s2 }) :
    p1 = p2 ∧ s1 = s2 := by
  unfold encodeQuery at h
  have hd := congrArg String.data h
  simp only at hd
  have hc := joinBar_cancel_two ((List.insertionSort keyLe f).map pairChars)
    (intChars p1) (intChars s1) (intChars p2) (intChars s2)
    (bar_not_mem_intChars_pos hp1) (bar_not_mem_intChars_pos hp2) hd
  exact ⟨intChars_inj_pos hp1 hp2 hc.1, intChars_inj_pos hs1 hs2 hc.2⟩

theorem encodeQuery_inj_clean {f1 f2 : List (String × String)}
    {p1 s1 p2 s2 : Int}
    (hc1 : ∀ kv ∈ f1, '|' ∉ (kv : String × String).1.data
      ∧ '=' ∉ (kv : String × String).1.data ∧ '|' ∉ (kv : String × String).2.data)
    (hc2 : ∀ kv ∈ f2, '|' ∉ (kv : String × String).1.data
      ∧ '=' ∉ (kv : String × String).1.data ∧ '|' ∉ (kv : String × String).2.data)
    (hp1 : 1 ≤ p1) (hs1 : 1 ≤ s1) (hp2 : 1 ≤ p2) (hs2 : 1 ≤ s2)
    (h : encodeQuery { filter := f1, page := p1, perPage := s1 }
      = encodeQuery { filter := f2, page := p2, perPage := s2 }) :
    f1.Perm f2 ∧ p1 = p2 ∧ s1 = s2 := by
  unfold encodeQuery at h
  have hd := congrArg String.data h
  simp only at hd
  have hs1mem : ∀ kv ∈ List.insertionSort keyLe f1, '|' ∉ (kv : String × String).1.data
      ∧ '=' ∉ (kv : String × String).1.data ∧ '|' ∉ (kv : String × String).2.data :=
    fun kv hkv => hc1 kv ((List.perm_insertionSort keyLe f1).mem_iff.mp hkv)
  have hs2mem : ∀ kv ∈ List.insertionSort keyLe f2, '|' ∉ (kv : String × String).1.data
      ∧ '=' ∉ (kv : String × String).1.data ∧ '|' ∉ (kv : String × String).2.data :=
    fun kv hkv => hc2 kv ((List.perm_insertionSort keyLe f2).mem_iff.mp hkv)
  have hcomp1 : ∀ x ∈ (List.insertionSort keyLe f1).map pairChars
      ++ [intChars p1, intChars s1], x ≠ [] ∧ '|' ∉ x := by
    intro x hx
    rcases List.mem_append.mp hx with hx | hx
    · rcases List.mem_map.mp hx with ⟨kv, hkv, rfl⟩
      exact ⟨pairChars_ne_nil kv,
        bar_not_mem_pairChars (hs1mem kv hkv).1 (hs1mem kv hkv).2.2⟩
    · rcases List.mem_cons.mp hx with rfl | hx
      · exact ⟨intChars_ne_nil_pos hp1, bar_not_mem_intChars_pos hp1⟩
      · rcases List.mem_cons.mp hx with rfl | hx
        · exact ⟨intChars_ne_nil_pos hs1, bar_not_mem_intChars_pos hs1⟩
        · simp at hx
  have hcomp2 : ∀ x ∈ (List.insertionSort keyLe f2).map pairChars
      ++ [intChars p2, intChars s2], x ≠ [] ∧ '|' ∉ x := by
    intro x hx
    rcases List.mem_append.mp hx with hx | hx
    · rcases List.mem_map.mp hx with ⟨kv, hkv, rfl⟩
      exact ⟨pairChars_ne_nil kv,
        bar_not_mem_pairChars (hs2mem kv hkv).1 (hs2mem kv hkv).2.2⟩
    · rcases List.mem_cons.mp hx with rfl | hx
      · exact ⟨intChars_ne_nil_pos hp2, bar_not_mem_intChars_pos hp2⟩
      · rcases List.mem_cons.mp hx with rfl | hx
        · exact ⟨intChars_ne_nil_pos hs2, bar_not_mem_intChars_pos hs2⟩
        · simp at hx
  have hlists := joinBar_inj _ _ hcomp1 hcomp2 hd
  have hspl := List.append_inj' hlists (by rfl)
  have hmap := map_pairChars_inj _ _
    (fun kv hkv => (hs1mem kv hkv).2.1)
    (fun kv hkv => (hs2mem kv hkv).2.1) hspl.1
  have hperm : f1.Perm f2 :=
    ((List.perm_insertionSort keyLe f1).symm.trans (hmap ▸
      List.perm_insertionSort keyLe f2 : (List.insertionSort keyLe f1).Perm f2))
  have htail := hspl.2
  simp only [List.cons.injEq, and_true] at htail
  exact ⟨hperm, intChars_inj_pos hp1 hp2 htail.1,
    intChars_inj_pos hs1 hs2 htail.2⟩

theorem cacheGet_cacheSet_self (c : CacheState) (k : String) (v : CacheVal)
    (ttl : Nat) : cacheGet (cacheSet c k v ttl) k = some v := by
  simp [cacheGet, cacheSet, List.find?]

/-- C1: after a successful `ListTasks(Q)` populates the cache, a second
`ListTasks` with the same query returns the cached (tasks, total) pair and
does not invoke the list operation of the Task Store. -/
theorem C1_cache_hit_short_circuit (st : StoreModel) (c : CacheState)
    (q : GoQuery) (v : CacheVal) (c1 : CacheState) (b : Bool)
    (h : listTasks st c q = ⟨.ok v, c1, b⟩) :
    listTasks st c1 q = ⟨.ok v, c1, false⟩ := by
  unfold listTasks at h ⊢
  cases hg : cacheGet c (encodeQuery q) with
  | some v0 =>
    rw [hg] at h
    simp only [ListOutcome.mk.injEq] at h
    obtain ⟨hv, hc, _⟩ := h
    injection hv with hv2
    subst hv2
    rw [← hc, hg]
  | none =>
    rw [hg] at h
    cases hl : st.list q with
    | error e =>
      rw [hl] at h
      simp [ListOutcome.mk.injEq] at h
    | ok v0 =>
      rw [hl] at h
      simp only [ListOutcome.mk.injEq] at h
      obtain ⟨hv, hc, _⟩ := h
      injection hv with hv2
      subst hv2
      rw [← hc, cacheGet_cacheSet_self]

/-- C2: with a populated cache entry for a query, a successful `CreateTask`,
`UpdateTask` or `DeleteTask` clears the cached listing entry, so the next
`ListTasks` for that query misses the cache and invokes the list
operation of the Task Store. -/
theorem C2_write_invalidation (st : StoreModel) (c : CacheState)
    (q : GoQuery) (v : CacheVal) (tc tu : TaskRec)
    (_hpop : cacheGet c (encodeQuery q) = some v) :
    (cacheGet (createTask (.ok tc) c).2 (encodeQuery q) = none
      ∧ (listTasks st (createTask (.ok tc) c).2 q).storeCalled = true)
    ∧ (cacheGet (updateTask (.ok tu) c).2 (encodeQuery q) = none
      ∧ (listTasks st (updateTask (.ok tu) c).2 q).storeCalled = true)
    ∧ (cacheGet (deleteTask none c).2 (encodeQuery q) = none
      ∧ (listTasks st (deleteTask none c).2 q).storeCalled = true) := by
  have hempty : ∀ k : String, cacheGet [] k = none := by
    intro k
    simp [cacheGet]
  have hcall : (listTasks st [] q).storeCalled = true := by
    unfold listTasks
    rw [hempty]
    cases st.list q <;> rfl
  exact ⟨⟨hempty _, hcall⟩, ⟨hempty _, hcall⟩, ⟨hempty _, hcall⟩⟩

/-- C4: the service List returns an error exactly when one of the
database calls of the repository fails, and then it is that same error,
unchanged — never an empty result with a nil error. -/
theorem C4_store_error_propagation (countRes : Except RepoErr Nat)
    (selectRes : Except RepoErr (List TaskRec)) (e : RepoErr) :
    serviceList (taskRepoListFlow countRes selectRes) = .error e
      ↔ (countRes = .error e
          ∨ ∃ total, countRes = .ok total ∧ selectRes = .error e) := by
  unfold serviceList taskRepoListFlow
  cases countRes with
  | error e2 => cases selectRes <;> simp
  | ok t => cases selectRes <;> simp

/-- C4 witness: a failing count query propagates verbatim through repository
and service. -/
theorem C4_store_error_propagation_witness :
    serviceList (taskRepoListFlow (.error (.dbFailure 7)) (.ok []))
      = .error (.dbFailure 7) :=
  (C4_store_error_propagation (.error (.dbFailure 7)) (.ok [])
    (.dbFailure 7)).mpr (Or.inl rfl)

/-- C5: `GetByID` yields the distinguished `ErrTaskNotFound` exactly for a
missing record, other database failures pass through as distinct error
values, and `Delete` yields `ErrTaskNotFound` exactly when zero rows were
deleted. -/
theorem C5_notfound_distinct :
    (∀ (table : List TaskRec) (id : Int), (∀ r ∈ table, r.id ≠ id) →
      taskRepoGetByID table id = .error .taskNotFound) ∧
    (∀ e : RepoErr, e ≠ .noRows → taskRepoGetByIDFlow (.error e) = .error e) ∧
    (∀ code : Nat, RepoErr.dbFailure code ≠ RepoErr.taskNotFound) ∧
    (∀ execRes : Except RepoErr (Except RepoErr Nat),
      execRes ≠ .error .taskNotFound → execRes ≠ .ok (.error .taskNotFound) →
      (taskRepoDelete execRes = some .taskNotFound ↔ execRes = .ok (.ok 0))) := by
  refine ⟨?_, ?_, ?_, ?_⟩
  · intro table id hnone
    unfold taskRepoGetByID
    cases hf : table.find? (fun r => r.id == id) with
    | none => rfl
    | some r =>
      exfalso
      have hmem := List.mem_of_find?_eq_some hf
      have hp := List.find?_some hf
      exact hnone r hmem (by simpa using hp)
  · intro e he
    simp only [taskRepoGetByIDFlow]
    rw [if_neg he]
  · intro code
    simp
  · intro execRes h1 h2
    unfold taskRepoDelete
    cases execRes with
    | error e =>
      have he : e ≠ RepoErr.taskNotFound := fun h => h1 (by rw [h])
      simp [he]
    | ok rowsRes =>
      cases rowsRes with
      | error e =>
        have he : e ≠ RepoErr.taskNotFound := fun h => h2 (by rw [h])
        simp [he]
      | ok rows =>
        by_cases hr : rows = 0 <;> simp [hr]

/-- C5 witness: an empty table yields `ErrTaskNotFound` for any id, a
connectivity failure passes through unchanged, and a delete affecting zero
rows yields `ErrTaskNotFound`. -/
theorem C5_notfound_distinct_witness :
    taskRepoGetByID [] 99 = .error .taskNotFound
    ∧ taskRepoGetByIDFlow (.error (.dbFailure 3)) = .error (.dbFailure 3)
    ∧ taskRepoDelete (.ok (.ok 0)) = some .taskNotFound :=
  ⟨C5_notfound_distinct.1 [] 99 (by simp),
   C5_notfound_distinct.2.1 (.dbFailure 3) (by simp),
   (C5_notfound_distinct.2.2.2 (.ok (.ok 0)) (by simp) (by simp)).mpr rfl⟩

/-- C6: for a query with page ≥ 1 and page size ≥ 0 the repository List
succeeds, the total is the number of rows matching the filters — the same
for every page and page size — and the returned page holds at most
`perPage` rows, the rows of the filtered table starting at offset
`(page-1)*perPage`. -/
theorem C6_offset_pagination (table : List TaskRec) (q : GoQuery)
    (hp : 1 ≤ q.page) (hs : 0 ≤ q.perPage) :
    ∃ rows : List TaskRec,
      taskRepoList table q
        = .ok (rows, (table.filter (rowMatches q.filter)).length)
      ∧ rows.length ≤ q.perPage.toNat
      ∧ (∀ i (hi : i < rows.length),
          ∃ hj : ((q.page - 1) * q.perPage).toNat + i
              < (table.filter (rowMatches q.filter)).length,
            rows.get ⟨i, hi⟩
              = (table.filter (rowMatches q.filter)).get
                  ⟨((q.page - 1) * q.perPage).toNat + i, hj⟩)
      ∧ (∀ (p2 s2 : Int) (rows2 : List TaskRec) (tot2 : Nat),
          taskRepoList table { q with page := p2, perPage := s2 }
            = .ok (rows2, tot2) →
          tot2 = (table.filter (rowMatches q.filter)).length) := by
  have hoff : ¬((q.perPage < 0) ∨ ((q.page - 1) * q.perPage < 0)) := by
    push_neg
    constructor
    · omega
    · exact mul_nonneg (by omega) hs
  refine ⟨((table.filter (rowMatches q.filter)).drop
      ((q.page - 1) * q.perPage).toNat).take q.perPage.toNat, ?_, ?_, ?_, ?_⟩
  · unfold taskRepoList sqlSelectPage
    rw [if_neg hoff]
  · exact (List.length_take_le _ _)
  · intro i hi
    simp only [List.length_take, List.length_drop, lt_min_iff] at hi
    refine ⟨by omega, ?_⟩
    simp [List.getElem_take, List.getElem_drop]
  · intro p2 s2 rows2 tot2 h
    simp only [taskRepoList] at h
    cases hsp : sqlSelectPage (table.filter (rowMatches q.filter)) s2
        ((p2 - 1) * s2) with
    | error e =>
      rw [hsp] at h
      simp at h
    | ok rows3 =>
      rw [hsp] at h
      simp only [Except.ok.injEq, Prod.mk.injEq] at h
      exact h.2.symm

theorem parseFold_no_page : ∀ (params : List (String × List String)) (q0 : GoQuery),
    (∀ kv ∈ params, (kv : String × List String).1 ≠ "page" ∧ kv.1 ≠ "per_page") →
    (params.foldl parseQueryStep q0).page = q0.page
      ∧ (params.foldl parseQueryStep q0).perPage = q0.perPage
  | [], _, _ => ⟨rfl, rfl⟩
  | kv :: rest, q0, h => by
    have hkv := h kv (List.mem_cons_self kv rest)
    have hstep : (parseQueryStep q0 kv).page = q0.page
        ∧ (parseQueryStep q0 kv).perPage = q0.perPage := by
      unfold parseQueryStep
      cases kv.2 with
      | nil => exact ⟨rfl, rfl⟩
      | cons v vs =>
        dsimp only
        rw [if_neg hkv.1, if_neg hkv.2]
        exact ⟨rfl, rfl⟩
    have ih := parseFold_no_page rest (parseQueryStep q0 kv)
      (fun kv2 hkv2 => h kv2 (List.mem_cons_of_mem kv hkv2))
    simp only [List.foldl_cons]
    exact ⟨ih.1.trans hstep.1, ih.2.trans hstep.2⟩

theorem parseFold_nonneg : ∀ (params : List (String × List String)) (q0 : GoQuery),
    0 ≤ q0.page → 0 ≤ q0.perPage →
    (∀ kv ∈ params, ∀ v, ((kv : String × List String)).2.head? = some v →
      ((kv.1 = "page" → 0 ≤ atoi v) ∧ (kv.1 = "per_page" → 0 ≤ atoi v))) →
    0 ≤ (params.foldl parseQueryStep q0).page
      ∧ 0 ≤ (params.foldl parseQueryStep q0).perPage
  | [], _, hp, hs, _ => ⟨hp, hs⟩
  | kv :: rest, q0, hp, hs, h => by
    have hkv := h kv (List.mem_cons_self kv rest)
    have hstep : 0 ≤ (parseQueryStep q0 kv).page
        ∧ 0 ≤ (parseQueryStep q0 kv).perPage := by
      unfold parseQueryStep
      cases hv : kv.2 with
      | nil => exact ⟨hp, hs⟩
      | cons v vs =>
        dsimp only
        have hhead := hkv v (by rw [hv]; rfl)
        by_cases h1 : kv.1 = "page"
        · rw [if_pos h1]
          exact ⟨hhead.1 h1, hs⟩
        · rw [if_neg h1]
          by_cases h2 : kv.1 = "per_page"
          · rw [if_pos h2]
            exact ⟨hp, hhead.2 h2⟩
          · rw [if_neg h2]
            exact ⟨hp, hs⟩
    have ih := parseFold_nonneg rest (parseQueryStep q0 kv) hstep.1 hstep.2
      (fun kv2 hkv2 => h kv2 (List.mem_cons_of_mem kv hkv2))
    simp only [List.foldl_cons]
    exact ih

/-- C7 (amended): a parsed Query has the documented defaults page 1 and
page size 20 whenever the request supplies no page or per_page parameter,
and page ≥ 1 and page size ≥ 1 whenever no supplied page or per_page value
parses to a negative integer; a negative supplied value, however, is stored
in the Query unchanged. -/
theorem C7_pagination_defaults (params : List (String × List String)) :
    ((∀ kv ∈ params, (kv : String × List String).1 ≠ "page" ∧ kv.1 ≠ "per_page") →
      (parseQuery params).page = 1 ∧ (parseQuery params).perPage = 20) ∧
    ((∀ kv ∈ params, ∀ v, ((kv : String × List String)).2.head? = some v →
        ((kv.1 = "page" → 0 ≤ atoi v) ∧ (kv.1 = "per_page" → 0 ≤ atoi v))) →
      1 ≤ (parseQuery params).page ∧ 1 ≤ (parseQuery params).perPage) := by
  constructor
  · intro h
    have hfold := parseFold_no_page params
      { filter := [], page := 0, perPage := 0 } h
    unfold parseQuery applyPageDefault applyPerPageDefault
    rw [if_pos hfold.1]
    rw [if_pos (show ({ params.foldl parseQueryStep
        { filter := [], page := 0, perPage := 0 } with page := 1 } : GoQuery).perPage
      = 0 from hfold.2)]
    exact ⟨rfl, rfl⟩
  · intro h
    have hfold := parseFold_nonneg params
      { filter := [], page := 0, perPage := 0 } (le_refl 0) (le_refl 0) h
    unfold parseQuery applyPageDefault applyPerPageDefault
    by_cases hp0 : (params.foldl parseQueryStep
        { filter := [], page := 0, perPage := 0 }).page = 0
    · rw [if_pos hp0]
      by_cases hs0 : ({ params.foldl parseQueryStep
          { filter := [], page := 0, perPage := 0 } with page := 1 } : GoQuery).perPage = 0
      · rw [if_pos hs0]
        exact ⟨le_refl 1, by norm_num⟩
      · rw [if_neg hs0]
        refine ⟨le_refl 1, ?_⟩
        have h2 := hfold.2
        have h3 : (params.foldl parseQueryStep
            { filter := [], page := 0, perPage := 0 }).perPage ≠ 0 := hs0
        dsimp only
        omega
    · rw [if_neg hp0]
      by_cases hs0 : (params.foldl parseQueryStep
          { filter := [], page := 0, perPage := 0 }).perPage = 0
      · rw [if_pos hs0]
        refine ⟨?_, by norm_num⟩
        have h1 := hfold.1
        dsimp only
        omega
      · rw [if_neg hs0]
        have h1 := hfold.1
        have h2 := hfold.2
        exact ⟨by omega, by omega⟩

/-- C7 counterexample: a request supplying `page=-1&per_page=-2` parses to
a Query with page -1 and page size -2, violating the claimed bounds
page ≥ 1 and page size ≥ 1. -/
theorem C7_pagination_counterexample :
    (parseQuery [("page", ["-1"]), ("per_page", ["-2"])]).page = -1
    ∧ (parseQuery [("page", ["-1"]), ("per_page", ["-2"])]).perPage = -2
    ∧ ¬(1 ≤ (parseQuery [("page", ["-1"]), ("per_page", ["-2"])]).page) := by
  decide

/-- C7 witness: with only a filter parameter the defaults 1 and 20 apply,
and with a non-negative page value the parsed page is at least 1. -/
theorem C7_pagination_defaults_witness :
    ((parseQuery [("status", ["done"])]).page = 1
      ∧ (parseQuery [("status", ["done"])]).perPage = 20)
    ∧ (1 ≤ (parseQuery [("page", ["3"])]).page
      ∧ 1 ≤ (parseQuery [("page", ["3"])]).perPage) :=
  ⟨(C7_pagination_defaults [("status", ["done"])]).1 (by decide),
   (C7_pagination_defaults [("page", ["3"])]).2 (by decide)⟩

/-- C8: for any create request passing request binding, an unset status is
defaulted to `pending` before the service is invoked, and a non-empty
status outside the four enumerated values is rejected as a validation
failure — the service Create is never invoked for such a request. -/
theorem C8_status_validation (req : CreateTaskRequest)
    (hb : createBindOK req = true) :
    (req.status = "" →
      taskCreateHandler req = .createCalled
        { id := 0, title := req.title, description := req.description,
          status := "pending", assigneeID := req.assigneeID,
          createdAt := 0, updatedAt := 0 }) ∧
    (req.status ≠ "" → taskStatusIsValid req.status = false →
      taskCreateHandler req = .invalidStatus
        ∧ ∀ t, taskCreateHandler req ≠ .createCalled t) := by
  constructor
  · intro hs
    unfold taskCreateHandler
    rw [hb]
    simp only [Bool.not_true, Bool.false_eq_true, if_false]
    rw [if_pos hs]
    simp [taskStatusIsValid]
  · intro hs hv
    have hres : taskCreateHandler req = .invalidStatus := by
      unfold taskCreateHandler
      rw [hb]
      simp only [Bool.not_true, Bool.false_eq_true, if_false]
      rw [if_neg hs, hv]
      simp
    exact ⟨hres, fun t h => by rw [hres] at h; exact CreateHandlerResult.noConfusion h⟩

/-- C8 witness: a bound request with no status reaches the service with
status `pending`, and a bound request with status `bogus` is rejected
before the service. -/
theorem C8_status_validation_witness :
    (taskCreateHandler ⟨"T", "", "", 5⟩
      = .createCalled ⟨0, "T", "", "pending", 5, 0, 0⟩)
    ∧ (taskCreateHandler ⟨"T", "", "bogus", 5⟩ = .invalidStatus) :=
  ⟨(C8_status_validation ⟨"T", "", "", 5⟩ (by decide)).1 rfl,
   ((C8_status_validation ⟨"T", "", "bogus", 5⟩ (by decide)).2
     (by decide) (by decide)).1⟩

/-- C9: the repository List recognises only the filter keys `title`,
`status` and `assignee_id`; inserting (equivalently, removing) a filter
entry with any other key leaves the returned page and total unchanged. -/
theorem C9_filter_restriction (table : List TaskRec) (q : GoQuery)
    (k v : String) (f1 f2 : List (String × String))
    (hk1 : k ≠ "title") (hk2 : k ≠ "status") (hk3 : k ≠ "assignee_id")
    (hq : q.filter = f1 ++ f2) :
    taskRepoList table { q with filter := f1 ++ (k, v) :: f2 }
      = taskRepoList table q := by
  have hentry : ∀ r : TaskRec, filterEntryMatches r (k, v) = true := by
    intro r
    unfold filterEntryMatches
    rw [if_neg hk2, if_neg hk3, if_neg hk1]
  have hrow : ∀ r : TaskRec,
      rowMatches (f1 ++ (k, v) :: f2) r = rowMatches (f1 ++ f2) r := by
    intro r
    unfold rowMatches
    simp [List.all_append, hentry r]
  have hfilt : table.filter (rowMatches (f1 ++ (k, v) :: f2))
      = table.filter (rowMatches q.filter) := by
    rw [hq]
    exact List.filter_congr (fun r _ => hrow r)
  unfold taskRepoList
  rw [hfilt]

/-- C9 witness: adding an unrecognised filter key `priority` to the empty
filter leaves the listing result unchanged. -/
theorem C9_filter_restriction_witness :
    taskRepoList [⟨1, "T1", "", "pending", 5, 0, 0⟩]
        { filter := [("priority", "high")], page := 1, perPage := 20 }
      = taskRepoList [⟨1, "T1", "", "pending", 5, 0, 0⟩]
        { filter := [], page := 1, perPage := 20 } :=
  C9_filter_restriction [⟨1, "T1", "", "pending", 5, 0, 0⟩]
    { filter := [], page := 1, perPage := 20 } "priority" "high" [] []
    (by decide) (by decide) (by decide) rfl

/-- C10: the repository Update result does not depend on the assignee id
carried by the entity the handler assembles, and the persisted table keeps
the id, assignee id and creation timestamp of every row unchanged — rows other
than the addressed one are untouched entirely. -/
theorem C10_update_frame (table : List TaskRec) (t : TaskRec) (now a : Int) :
    taskRepoUpdate table { t with assigneeID := a } now
      = taskRepoUpdate table t now ∧
    (∀ (ret : TaskRec) (table2 : List TaskRec),
      taskRepoUpdate table t now = .ok (ret, table2) →
      table2.length = table.length ∧
      ∀ i (hi : i < table.length), ∃ hi2 : i < table2.length,
        (table2.get ⟨i, hi2⟩).assigneeID = (table.get ⟨i, hi⟩).assigneeID
        ∧ (table2.get ⟨i, hi2⟩).id = (table.get ⟨i, hi⟩).id
        ∧ (table2.get ⟨i, hi2⟩).createdAt = (table.get ⟨i, hi⟩).createdAt
        ∧ ((table.get ⟨i, hi⟩).id ≠ t.id →
            table2.get ⟨i, hi2⟩ = table.get ⟨i, hi⟩)) := by
  have happly : applyUpdateRow { t with assigneeID := a } now
      = applyUpdateRow t now := by
    funext r
    unfold applyUpdateRow
    rfl
  constructor
  · unfold taskRepoUpdate
    rw [happly]
  · intro ret table2 h
    unfold taskRepoUpdate at h
    cases hf : table.find? (fun r => r.id == t.id) with
    | none =>
      rw [hf] at h
      exact absurd h (by simp)
    | some r0 =>
      rw [hf] at h
      simp only [Except.ok.injEq, Prod.mk.injEq] at h
      obtain ⟨-, htab⟩ := h
      subst htab
      refine ⟨List.length_map table (applyUpdateRow t now), ?_⟩
      intro i hi
      refine ⟨by simpa using hi, ?_⟩
      have hget : (table.map (applyUpdateRow t now)).get
          ⟨i, by simpa using hi⟩ = applyUpdateRow t now (table.get ⟨i, hi⟩) := by
        simp
      rw [hget]
      unfold applyUpdateRow
      by_cases hid : (table.get ⟨i, hi⟩).id == t.id
      · rw [if_pos hid]
        refine ⟨rfl, rfl, rfl, ?_⟩
        intro hne
        exact absurd (by simpa using hid) hne
      · rw [if_neg hid]
        exact ⟨rfl, rfl, rfl, fun _ => rfl⟩

/-- C10 witness: updating a concrete one-row table with a request carrying
a different assignee id gives the same result as with the original, and the
persisted row keeps its assignee id. -/
theorem C10_update_frame_witness :
    taskRepoUpdate [⟨1, "Old", "", "pending", 5, 0, 0⟩]
        { id := 1, title := "New", description := "d", status := "done",
          assigneeID := 9, createdAt := 0, updatedAt := 0 } 7
      = taskRepoUpdate [⟨1, "Old", "", "pending", 5, 0, 0⟩]
        ⟨1, "New", "d", "done", 0, 0, 0⟩ 7 :=
  (C10_update_frame [⟨1, "Old", "", "pending", 5, 0, 0⟩]
    ⟨1, "New", "d", "done", 0, 0, 0⟩ 7 9).1

/-- C3 (amended): the encoded key is identical for any two filter mappings
equal as sets of pairs, independent of insertion order, and with equal page
and page-size; the key differs whenever the page or the page-size differs;
and it differs whenever the filter-sets differ, provided no filter key
contains the separator or the `=` sign and no filter value contains the
separator (a value embedding the separator can collide, see the
counterexample). -/
theorem C3_encode_determinism_distinctness :
    (∀ (f1 f2 : List (String × String)) (p s : Int),
        (f1.map Prod.fst).Nodup → f1.Perm f2 →
        encodeQuery { filter := f1, page := p, perPage := s }
          = encodeQuery { filter := f2, page := p, perPage := s }) ∧
    (∀ (f : List (String × String)) (p1 s1 p2 s2 : Int),
        1 ≤ p1 → 1 ≤ s1 → 1 ≤ p2 → 1 ≤ s2 →
        encodeQuery { filter := f, page := p1, perPage := s1 }
          = encodeQuery { filter := f, page := p2, perPage := s2 } →
        p1 = p2 ∧ s1 = s2) ∧
    (∀ (f1 f2 : List (String × String)) (p1 s1 p2 s2 : Int),
        (∀ kv ∈ f1, '|' ∉ (kv : String × String).1.data
          ∧ '=' ∉ (kv : String × String).1.data
          ∧ '|' ∉ (kv : String × String).2.data) →
        (∀ kv ∈ f2, '|' ∉ (kv : String × String).1.data
          ∧ '=' ∉ (kv : String × String).1.data
          ∧ '|' ∉ (kv : String × String).2.data) →
        1 ≤ p1 → 1 ≤ s1 → 1 ≤ p2 → 1 ≤ s2 →
        encodeQuery { filter := f1, page := p1, perPage := s1 }
          = encodeQuery { filter := f2, page := p2, perPage := s2 } →
        f1.Perm f2 ∧ p1 = p2 ∧ s1 = s2) :=
  ⟨fun _ _ p s hnd hperm => encodeQuery_det p s hnd hperm,
   fun _ _ _ _ _ hp1 hs1 hp2 hs2 h =>
     encodeQuery_pagesize_inj hp1 hs1 hp2 hs2 h,
   fun _ _ _ _ _ _ hc1 hc2 hp1 hs1 hp2 hs2 h =>
     encodeQuery_inj_clean hc1 hc2 hp1 hs1 hp2 hs2 h⟩

/-- C3 counterexample: the filter mappings {a ↦ "1|b=2"} and
{a ↦ "1", b ↦ "2"} are different filter-sets (both with distinct keys),
yet with page 3 and page-size 4 they encode to the same key, because the
first value embeds the separator. -/
theorem C3_encode_counterexample :
    encodeQuery { filter := [("a", "1|b=2")], page := 3, perPage := 4 }
      = encodeQuery { filter := [("a", "1"), ("b", "2")], page := 3, perPage := 4 }
    ∧ ("b", "2") ∈ [("a", "1"), ("b", "2")]
    ∧ ("b", "2") ∉ [("a", "1|b=2")]
    ∧ (["a"] : List String).Nodup ∧ (["a", "b"] : List String).Nodup
    ∧ ¬ ([("a", "1|b=2")] : List (String × String)).Perm
        [("a", "1"), ("b", "2")] := by
  refine ⟨by decide, by decide, by decide, by decide, by decide, ?_⟩
  intro h
  have hlen := h.length_eq
  simp at hlen

/-- C3 witness: two insertion orders of the same two-entry filter encode to
the same key, and equal pages and page-sizes are recovered from an encode
equality. -/
theorem C3_encode_determinism_distinctness_witness :
    (encodeQuery { filter := [("b", "2"), ("a", "1")], page := 1, perPage := 20 }
      = encodeQuery { filter := [("a", "1"), ("b", "2")], page := 1, perPage := 20 })
    ∧ ((2 : Int) = 2 ∧ (10 : Int) = 10) :=
  ⟨C3_encode_determinism_distinctness.1 [("b", "2"), ("a", "1")]
      [("a", "1"), ("b", "2")] 1 20 (by decide) (by decide),
   C3_encode_determinism_distinctness.2.1 [] 2 10 2 10
     (by decide) (by decide) (by decide) (by decide) rfl⟩

/-- C1 witness: with a one-entry store and the populated cache produced by
a first successful listing, the second listing is served from the cache
without calling the store. -/
theorem C1_cache_hit_short_circuit_witness :
    listTasks ⟨fun _ => .ok ([], 0)⟩ [("1|20", ([], 0))]
        { filter := [], page := 1, perPage := 20 }
      = ⟨.ok ([], 0), [("1|20", ([], 0))], false⟩ :=
  C1_cache_hit_short_circuit ⟨fun _ => .ok ([], 0)⟩ []
    { filter := [], page := 1, perPage := 20 } ([], 0)
    [("1|20", ([], 0))] true rfl

/-- C2 witness: a populated entry for the unfiltered page-1 listing is
gone after each successful mutation, and the next listing calls the
store. -/
theorem C2_write_invalidation_witness :
    (cacheGet (createTask (.ok ⟨1, "T", "", "pending", 5, 0, 0⟩)
        [("1|20", ([], 0))]).2 "1|20" = none
      ∧ (listTasks ⟨fun _ => .ok ([], 0)⟩
          (createTask (.ok ⟨1, "T", "", "pending", 5, 0, 0⟩)
            [("1|20", ([], 0))]).2
          { filter := [], page := 1, perPage := 20 }).storeCalled = true)
    ∧ (cacheGet (updateTask (.ok ⟨1, "T", "", "pending", 5, 0, 0⟩)
        [("1|20", ([], 0))]).2 "1|20" = none
      ∧ (listTasks ⟨fun _ => .ok ([], 0)⟩
          (updateTask (.ok ⟨1, "T", "", "pending", 5, 0, 0⟩)
            [("1|20", ([], 0))]).2
          { filter := [], page := 1, perPage := 20 }).storeCalled = true)
    ∧ (cacheGet (deleteTask none [("1|20", ([], 0))]).2 "1|20" = none
      ∧ (listTasks ⟨fun _ => .ok ([], 0)⟩
          (deleteTask none [("1|20", ([], 0))]).2
          { filter := [], page := 1, perPage := 20 }).storeCalled = true) :=
  C2_write_invalidation ⟨fun _ => .ok ([], 0)⟩ [("1|20", ([], 0))]
    { filter := [], page := 1, perPage := 20 } ([], 0)
    ⟨1, "T", "", "pending", 5, 0, 0⟩ ⟨1, "T", "", "pending", 5, 0, 0⟩ rfl

/-- C6 witness: the offset-pagination properties instantiated at a concrete
one-row table and the default unfiltered page-1/size-20 query. -/
theorem C6_offset_pagination_witness :
    ∃ rows : List TaskRec,
      taskRepoList [⟨1, "T1", "", "pending", 5, 0, 0⟩]
          { filter := [], page := 1, perPage := 20 }
        = .ok (rows,
            (([⟨1, "T1", "", "pending", 5, 0, 0⟩] : List TaskRec).filter
              (rowMatches [])).length)
      ∧ rows.length ≤ (20 : Int).toNat
      ∧ (∀ i (hi : i < rows.length),
          ∃ hj : (((1 : Int) - 1) * 20).toNat + i
              < (([⟨1, "T1", "", "pending", 5, 0, 0⟩] : List TaskRec).filter
                  (rowMatches [])).length,
            rows.get ⟨i, hi⟩
              = (([⟨1, "T1", "", "pending", 5, 0, 0⟩] : List TaskRec).filter
                  (rowMatches [])).get
                  ⟨(((1 : Int) - 1) * 20).toNat + i, hj⟩)
      ∧ (∀ (p2 s2 : Int) (rows2 : List TaskRec) (tot2 : Nat),
          taskRepoList [⟨1, "T1", "", "pending", 5, 0, 0⟩]
              { filter := [], page := p2, perPage := s2 }
            = .ok (rows2, tot2) →
          tot2 = (([⟨1, "T1", "", "pending", 5, 0, 0⟩] : List TaskRec).filter
              (rowMatches [])).length) :=
  C6_offset_pagination [⟨1, "T1", "", "pending", 5, 0, 0⟩]
    { filter := [], page := 1, perPage := 20 } (by decide) (by decide)
